import Mathlib

/-! pg_backup: retention, dump and compression pipeline

A shallow embedding of `main.go`.  The program talks to the outside world
(clock, filesystem, external processes); every answer the outside world gives is
a field of `World`, and everything the program does to the outside world is an
`Effect`.  A run is the list of effects it performs, in order.

Go `string` is `String`, Go `int` is `Int` restricted to 64 bits by `wrapInt`.
-/

namespace PgBackup

/-! ## Go `int` -/

/-- Smallest Go `int` (64-bit). -/
def minInt : Int := -9223372036854775808

/-- Largest Go `int` (64-bit). -/
def maxInt : Int := 9223372036854775807

/-- Two's complement reduction of a mathematical integer to a Go `int`. -/
def wrapInt (x : Int) : Int := (x + 9223372036854775808) % 18446744073709551616 - 9223372036854775808

/-- Go `-x` on `int`. -/
def negInt (x : Int) : Int := wrapInt (-x)

/-- Go `x * y` on `int`. -/
def mulInt (x y : Int) : Int := wrapInt (x * y)

/-! ## Data model -/

/-- The `Config` struct. -/
structure Config where
  BackupUser : String
  Hostname : String
  DBPort : String
  UserDB : String
  PGPASSWORD : String
  Database : String
  BackupDir : String
  SchemaOnlyList : String
  EnableCustomBackups : String
  EnablePlainBackups : String
  EnableGlobalsBackups : String
  DayOfWeekToKeep : Int
  DaysToKeep : Int
  WeeksToKeep : Int
  Format : String
  deriving DecidableEq

/-- The zero value `&Config{}`. -/
def Config.zero : Config :=
  { BackupUser := "", Hostname := "", DBPort := "", UserDB := "", PGPASSWORD := "",
    Database := "", BackupDir := "", SchemaOnlyList := "", EnableCustomBackups := "",
    EnablePlainBackups := "", EnableGlobalsBackups := "", DayOfWeekToKeep := 0,
    DaysToKeep := 0, WeeksToKeep := 0, Format := "" }

/-- What the program does to the outside world. -/
inductive Effect where
  /-- The call `os.RemoveAll(path)`. -/
  | removeAll (path : String)
  /-- The call `os.MkdirAll(path, perm)`. -/
  | mkdirAll (path : String) (perm : Nat)
  /-- The call `exec.Command(name, args...).CombinedOutput()`; `env` is `cmd.Env`
  (`none` when it is left unset and the child inherits the environment). -/
  | exec (name : String) (args : List String) (env : Option (List String))
  /-- The call `os.Remove(path)`. -/
  | remove (path : String)
  deriving DecidableEq

/-- The answers of the standard library and the operating system during one run. -/
structure World where
  /-- The result of `filepath.Join(a, b)`. -/
  join : String → String → String
  /-- The value of `filepath.Separator`. -/
  separator : Char
  /-- The instant `t.AddDate(0, 0, days)`, instants counted in nanoseconds. -/
  addDate : Int → Int → Int
  /-- Whether `os.Executable()` returns without error. -/
  executableOk : Bool
  /-- The configuration file: `none` when `os.Open` fails, otherwise the lines the
  scanner yields and whether `scanner.Err()` is non-nil at the end. -/
  cfgFile : Option (List String × Bool)
  /-- The string `time.Now().Format("2006-01-02")` read in `limpaBackups`. -/
  today : String
  /-- The number `int(time.Now().Weekday())` read in `limpaBackups`. -/
  weekday : Int
  /-- The instant `time.Now()` read in `cleanOldBackups`. -/
  now : Int
  /-- For the pattern `filepath.Join(backupDir, "*-"+suffix)`: the directories its
  directory part denotes (the root itself when it holds no glob metacharacter), each
  with the sorted names `Readdirnames` yields for it. -/
  globDirs : String → List (String × List String)
  /-- The result of `os.Stat(path)` in the pruning loop: the modification time, or
  `none` on error. -/
  stat : String → Option Int
  /-- Whether `os.Stat(path)` fails with an error for which `os.IsNotExist` holds. -/
  notExist : String → Bool
  /-- Whether `os.MkdirAll(path, _)` returns an error. -/
  mkdirFails : String → Bool
  /-- The result of `os.Environ()`. -/
  environ : List String
  /-- Whether `CombinedOutput` of the command returns a nil error (exit status zero). -/
  runOk : String → List String → Bool
  /-- The string `time.Now().Format("2006-01-02")` read in `compactaBackup`. -/
  today2 : String

/-! ## `filepath.Match` for the pattern the program builds -/

/-- The function `matchChunk` for a chunk of literal characters: the rest of the name
after the chunk, when the name starts with it. -/
def matchChunk : List Char → List Char → Option (List Char)
  | [], s => some s
  | _ :: _, [] => none
  | p :: ps, c :: s => if p = c then matchChunk ps s else none

/-- The loop of `Match` that, after a star, retries the last chunk skipping `i+1`
characters of the name, never skipping a separator. -/
def starSkip (sep : Char) (chunk : List Char) : List Char → Bool
  | [] => false
  | c :: rest =>
    if c = sep then false
    else if matchChunk chunk rest = some [] then true
    else starSkip sep chunk rest

/-- The function `filepath.Match` on a pattern that is one optional leading `*` and a
chunk of literal characters. -/
def Match (sep : Char) (pattern name : String) : Bool :=
  match pattern.data with
  | '*' :: chunk =>
    if chunk = [] then !(name.data.contains sep)
    else if matchChunk chunk name.data = some [] then true
    else starSkip sep chunk name.data
  | chunk => matchChunk chunk name.data = some []

/-- The function `filepath.Glob` on `filepath.Join(backupDir, "*-"+suffix)`. -/
def Glob (w : World) (backupDir suffix : String) : List String :=
  (w.globDirs backupDir).flatMap fun dn =>
    (dn.2.filter fun n => Match w.separator ("*-" ++ suffix) n).map (w.join dn.1)

/-! ## Retention -/

/-- The two retention classes, whose names `limpaBackups` passes as suffix. -/
inductive RetentionClass where
  | daily
  | weekly
  deriving DecidableEq

/-- The suffix of a retention class. -/
def RetentionClass.suffix : RetentionClass → String
  | RetentionClass.daily => "daily"
  | RetentionClass.weekly => "weekly"

/-- The function `cleanOldBackups`. -/
def cleanOldBackups (w : World) (backupDir suffix : String) (daysToKeep : Int) :
    List Effect :=
  let cutoff := w.addDate w.now (negInt daysToKeep)
  let files := Glob w backupDir suffix
  files.filterMap fun file =>
    match w.stat file with
    | none => none
    | some modTime => if modTime < cutoff then some (Effect.removeAll file) else none

/-- The process-wide variables `finalBackupDir` and `backupDate`. -/
structure Globals where
  finalBackupDir : String
  backupDate : String
  deriving DecidableEq

/-- The function `limpaBackups`: the variables it sets and the effects it performs. -/
def limpaBackups (w : World) (config : Config) : Globals × List Effect :=
  let backupDate := w.today
  let dayOfWeek := w.weekday
  let r : String × List Effect :=
    if dayOfWeek = config.DayOfWeekToKeep then
      let suffix := "weekly"
      (w.join config.BackupDir (backupDate ++ "-" ++ suffix),
        cleanOldBackups w config.BackupDir suffix (mulInt config.WeeksToKeep 7))
    else
      let suffix := "daily"
      (w.join config.BackupDir (backupDate ++ "-" ++ suffix),
        cleanOldBackups w config.BackupDir suffix config.DaysToKeep)
  let finalBackupDir := r.1
  let mk := if w.notExist finalBackupDir then [Effect.mkdirAll finalBackupDir 0o755] else []
  ({ finalBackupDir := finalBackupDir, backupDate := backupDate }, r.2 ++ mk)

/-! ## Dump and compression -/

/-- The function `compactaTarBackup`. -/
def compactaTarBackup (w : World) (backupFile : String) : List Effect :=
  let compressedFile := backupFile ++ ".7z"
  let zipArgs := ["a", "-t7z", compressedFile, backupFile]
  if w.runOk "7z" zipArgs then
    [Effect.exec "7z" zipArgs none, Effect.remove backupFile]
  else
    [Effect.exec "7z" zipArgs none]

/-- The variable `backupFile` of `execBackup`. -/
def backupFile (w : World) (config : Config) (finalBackupDir : String) : String :=
  if config.Format = "c" ∨ config.Format = "d" then
    w.join finalBackupDir (config.Database ++ ".dump")
  else if config.Format = "t" then
    w.join finalBackupDir (config.Database ++ ".tar")
  else
    w.join finalBackupDir (config.Database ++ ".sql")

/-- The variable `pgDumpArgs` of `execBackup`. -/
def pgDumpArgs (w : World) (config : Config) (finalBackupDir : String) : List String :=
  [ "--host=" ++ config.Hostname,
    "--port=" ++ config.DBPort,
    "--username=" ++ config.UserDB,
    "--format=" ++ config.Format,
    "-f", backupFile w config finalBackupDir,
    config.Database ]

/-- The variable `cmdArgs` of `execBackup`. -/
def cmdArgs (w : World) (config : Config) (finalBackupDir : String) : List String :=
  ["/C", "pg_dump"] ++ pgDumpArgs w config finalBackupDir

/-- The function `execBackup`. -/
def execBackup (w : World) (config : Config) (g : Globals) : List Effect :=
  let args := cmdArgs w config g.finalBackupDir
  let cmd := Effect.exec "cmd" args (some (w.environ ++ ["PGPASSWORD=" ++ config.PGPASSWORD]))
  if w.runOk "cmd" args then
    if config.Format = "t" then
      cmd :: compactaTarBackup w (backupFile w config g.finalBackupDir)
    else [cmd]
  else [cmd]

/-- The function `compactaBackup`: the variables afterwards and the effects. -/
def compactaBackup (w : World) (config : Config) (g : Globals) : Globals × List Effect :=
  if config.Format ≠ "p" then (g, [])
  else
    let backupDate := w.today2
    let backupFile := w.join g.finalBackupDir (config.Database ++ ".sql")
    let zipFile := w.join g.finalBackupDir (config.Database ++ "_" ++ backupDate ++ ".7z")
    let zipArgs := ["a", "-t7z", zipFile, backupFile]
    let g1 : Globals := { g with backupDate := backupDate }
    if w.runOk "7z" zipArgs then
      (g1, [Effect.exec "7z" zipArgs none, Effect.remove backupFile])
    else
      (g1, [Effect.exec "7z" zipArgs none])

/-! ## Configuration loading -/

/-- The predicate `unicode.IsSpace`. -/
def isSpace (c : Char) : Bool :=
  c = '\t' || c = '\n' || c = '\x0b' || c = '\x0c' || c = '\r' || c = ' ' ||
  c.toNat = 0x85 || c.toNat = 0xA0 || c.toNat = 0x1680 ||
  (0x2000 ≤ c.toNat && c.toNat ≤ 0x200A) || c.toNat = 0x2028 || c.toNat = 0x2029 ||
  c.toNat = 0x202F || c.toNat = 0x205F || c.toNat = 0x3000

/-- The function `strings.TrimSpace`. -/
def TrimSpace (s : List Char) : List Char :=
  ((s.dropWhile isSpace).reverse.dropWhile isSpace).reverse

/-- The call `strings.SplitN(line, "=", 2)` when it yields two parts: the text before
the first `=` and the text after it; `none` when the line holds no `=`. -/
def splitEq : List Char → Option (List Char × List Char)
  | [] => none
  | c :: s => if c = '=' then some ([], s) else (splitEq s).map fun p => (c :: p.1, p.2)

/-- The errors of `strconv`: `ErrSyntax` and `ErrRange`. -/
inductive NumError where
  | invalid
  | range
  deriving DecidableEq

/-- The value of a decimal digit, `none` for any other character. -/
def digitOf (c : Char) : Option Nat :=
  if 48 ≤ c.toNat ∧ c.toNat ≤ 57 then some (c.toNat - 48) else none

/-- The constant `maxUint64`. -/
def maxUint64 : Nat := 18446744073709551615

/-- The loop of `strconv.ParseUint(s, 10, 0)` from accumulator `n`. A letter has a
digit value of at least ten and is refused like every other non-digit. -/
def parseUintLoop : Nat → List Char → Nat × Option NumError
  | n, [] => (n, none)
  | n, c :: cs =>
    match digitOf c with
    | none => (0, some NumError.invalid)
    | some d =>
      if n ≥ maxUint64 / 10 + 1 then (maxUint64, some NumError.range)
      else
        let n10 := (n * 10) % 18446744073709551616
        let n1 := (n10 + d) % 18446744073709551616
        if n1 < n10 ∨ n1 > maxUint64 then (maxUint64, some NumError.range)
        else parseUintLoop n1 cs

/-- The function `strconv.ParseUint(s, 10, 0)`. -/
def ParseUint (s : List Char) : Nat × Option NumError :=
  if s = [] then (0, some NumError.invalid) else parseUintLoop 0 s

/-- Whether the text starts with a sign character. -/
def hasSign (s : List Char) : Bool := s.head? = some '+' || s.head? = some '-'

/-- The function `strconv.ParseInt(s, 10, 0)`. -/
def ParseInt (s : List Char) : Int × Option NumError :=
  if s = [] then (0, some NumError.invalid)
  else
    let neg := s.head? = some '-'
    let body := if hasSign s then s.tail else s
    let r := ParseUint body
    if r.2 = some NumError.invalid then (0, some NumError.invalid)
    else
      let un := r.1
      let cutoff : Nat := 9223372036854775808
      if ¬ neg ∧ un ≥ cutoff then ((cutoff : Int) - 1, some NumError.range)
      else if neg ∧ un > cutoff then (-(cutoff : Int), some NumError.range)
      else
        let n := wrapInt (un : Int)
        (if neg then negInt n else n, none)

/-- The length `len(s)` in bytes of the UTF-8 encoding. -/
def byteLen (s : List Char) : Nat := (s.map Char.utf8Size).sum

/-- The loop of the fast path of `strconv.Atoi`: `none` at the first non-digit. -/
def atoiLoop : Int → List Char → Option Int
  | n, [] => some n
  | n, c :: cs =>
    match digitOf c with
    | none => none
    | some d => atoiLoop (wrapInt (wrapInt (n * 10) + d)) cs

/-- The function `strconv.Atoi`: the value returned and the error. -/
def Atoi (s : List Char) : Int × Option NumError :=
  let sLen := byteLen s
  if 0 < sLen ∧ sLen < 19 then
    let body := if hasSign s then s.tail else s
    if body = [] then (0, some NumError.invalid)
    else
      match atoiLoop 0 body with
      | none => (0, some NumError.invalid)
      | some n => (if s.head? = some '-' then negInt n else n, none)
  else ParseInt s

/-- The `switch key` of `loadConfig`. -/
def setField (config : Config) (key value : String) : Config :=
  if key = "BACKUP_USER" then { config with BackupUser := value }
  else if key = "HOSTNAME" then { config with Hostname := value }
  else if key = "DBPORT" then { config with DBPort := value }
  else if key = "USERDB" then { config with UserDB := value }
  else if key = "PGPASSWORD" then { config with PGPASSWORD := value }
  else if key = "DATABASE" then { config with Database := value }
  else if key = "BACKUP_DIR" then { config with BackupDir := value }
  else if key = "SCHEMA_ONLY_LIST" then { config with SchemaOnlyList := value }
  else if key = "ENABLE_CUSTOM_BACKUPS" then { config with EnableCustomBackups := value }
  else if key = "ENABLE_PLAIN_BACKUPS" then { config with EnablePlainBackups := value }
  else if key = "ENABLE_GLOBALS_BACKUPS" then { config with EnableGlobalsBackups := value }
  else if key = "DAY_OF_WEEK_TO_KEEP" then { config with DayOfWeekToKeep := (Atoi value.data).1 }
  else if key = "DAYS_TO_KEEP" then { config with DaysToKeep := (Atoi value.data).1 }
  else if key = "WEEKS_TO_KEEP" then { config with WeeksToKeep := (Atoi value.data).1 }
  else if key = "FORMAT" then { config with Format := value }
  else config

/-- The trimmed key and value of a line, `none` for a line the loop skips (empty,
starting with `#`, or without `=`). -/
def keyValue (line : String) : Option (String × String) :=
  if line = "" ∨ line.data.head? = some '#' then none
  else
    match splitEq line.data with
    | none => none
    | some parts => some (String.mk (TrimSpace parts.1), String.mk (TrimSpace parts.2))

/-- The body of the scanning loop of `loadConfig`. -/
def scanLine (config : Config) (line : String) : Config :=
  match keyValue line with
  | none => config
  | some kv => setField config kv.1 kv.2

/-- The function `loadConfig`; `none` stands for a returned error. -/
def loadConfig (file : Option (List String × Bool)) : Option Config :=
  match file with
  | none => none
  | some (lines, scanErr) =>
    let config := lines.foldl scanLine Config.zero
    if scanErr then none else some config

/-- The function `carregaConfig`: the value of the variable `config` afterwards,
`none` for the nil pointer. -/
def carregaConfig (w : World) : Option Config :=
  if w.executableOk then loadConfig w.cfgFile else none

/-- The function `main`. With a nil `config` the first field access of
`limpaBackups` panics and the process ends before any effect. -/
def main (w : World) : List Effect :=
  match carregaConfig w with
  | none => []
  | some config =>
    let r1 := limpaBackups w config
    let e2 := execBackup w config r1.1
    let r3 := compactaBackup w config r1.1
    r1.2 ++ e2 ++ r3.2

/-! ## Decimal integers, as the specification reads them -/

/-- The text after an optional leading sign. -/
def unsigned (s : List Char) : List Char := if hasSign s then s.tail else s

/-- The leading run of decimal digits. -/
def leadingDigits (s : List Char) : List Char := s.takeWhile fun c => (digitOf c).isSome

/-- The number a run of decimal digits denotes, continuing from `n`. -/
def decimalValue : Nat → List Char → Nat
  | n, [] => n
  | n, c :: cs => decimalValue (n * 10 + (digitOf c).getD 0) cs

/-- A decimal integer in syntax: an optional sign, then one or more digits and nothing
else. -/
def validDecimal (s : List Char) : Prop :=
  unsigned s ≠ [] ∧ ∀ c ∈ unsigned s, (digitOf c).isSome = true

instance (s : List Char) : Decidable (validDecimal s) := by
  unfold validDecimal
  infer_instance

/-- The keys `loadConfig` recognizes. -/
def recognizedKeys : List String :=
  ["BACKUP_USER", "HOSTNAME", "DBPORT", "USERDB", "PGPASSWORD", "DATABASE", "BACKUP_DIR",
   "SCHEMA_ONLY_LIST", "ENABLE_CUSTOM_BACKUPS", "ENABLE_PLAIN_BACKUPS",
   "ENABLE_GLOBALS_BACKUPS", "DAY_OF_WEEK_TO_KEEP", "DAYS_TO_KEEP", "WEEKS_TO_KEEP", "FORMAT"]

/-- The integer field an integer key sets. -/
def intField (key : String) (config : Config) : Int :=
  if key = "DAY_OF_WEEK_TO_KEEP" then config.DayOfWeekToKeep
  else if key = "DAYS_TO_KEEP" then config.DaysToKeep
  else config.WeeksToKeep

/-! ## A sample world -/

/-- A sample of `filepath.Join`: the two elements with a slash between them. -/
def slashJoin (a b : String) : String := a ++ "/" ++ b

/-- A sample of `AddDate` for the UTC calendar: a day is 86400 seconds. -/
def utcAddDate (t days : Int) : Int := t + days * 86400000000000

/-- A sample world: Friday 2024-03-01, a root holding four entries, every external
command succeeding. -/
def sampleWorld (cfg : List String) : World :=
  { join := slashJoin, separator := '/', addDate := utcAddDate, executableOk := true,
    cfgFile := some (cfg, false), today := "2024-03-01", weekday := 5,
    now := 1709290800000000000,
    globDirs := fun d => [(d, ["2024-01-01-daily", "2024-01-01-weekly", "2024-02-23-daily", "notes"])],
    stat := fun p =>
      if p = "/bk/2024-01-01-daily" then some 1704106800000000000
      else if p = "/bk/2024-01-01-weekly" then some 1704106800000000000
      else if p = "/bk/2024-02-23-daily" then some 1708686000000000000
      else none,
    notExist := fun _ => true, mkdirFails := fun _ => false, environ := ["PATH=/bin"],
    runOk := fun _ _ => true, today2 := "2024-03-01" }

/-- A sample configuration file. -/
def sampleCfg (format : String) : List String :=
  ["# backup settings", "", "HOSTNAME=db1", "DBPORT = 5432", "USERDB=postgres",
   "PGPASSWORD=s3cret", "DATABASE=orders", "BACKUP_DIR=/bk", "DAY_OF_WEEK_TO_KEEP=0",
   "DAYS_TO_KEEP=7", "WEEKS_TO_KEEP=4", "FORMAT=" ++ format]

/-- A world in which the dump tool fails and every other command succeeds. -/
def failedDumpWorld (cfg : List String) : World :=
  { sampleWorld cfg with runOk := fun name _ => name != "cmd" }

/-- A world in which the destination directory is missing and cannot be created. -/
def mkdirFailWorld (cfg : List String) : World :=
  { sampleWorld cfg with mkdirFails := fun _ => true }

/-- The settings record loaded from `sampleCfg format`. -/
def sampleConfig (format : String) : Config :=
  { BackupUser := "", Hostname := "db1", DBPort := "5432", UserDB := "postgres",
    PGPASSWORD := "s3cret", Database := "orders", BackupDir := "/bk", SchemaOnlyList := "",
    EnableCustomBackups := "", EnablePlainBackups := "", EnableGlobalsBackups := "",
    DayOfWeekToKeep := 0, DaysToKeep := 7, WeeksToKeep := 4, Format := format }

/-- A settings record whose weekly day is Friday. -/
def fridayConfig : Config := { sampleConfig "p" with DayOfWeekToKeep := 5 }

/-! ## The method `AddDate` of `time.Time` -/

/-- What `Location.lookup` reports for a Unix time in seconds: the offset east of UTC, in
seconds, and the span of Unix times, from `start` up to `stop`, in which it holds. -/
structure ZoneSpan where
  offset : Int
  start : Int
  stop : Int

/-- The constant `unixToInternal`: the seconds from the year 1 to 1970. -/
def unixToInternal : Int := 62135596800

/-- The method `t.AddDate(0, 0, days)` as `time.Date` computes it, on instants counted in
nanoseconds since 1970. The date and clock of `t` are read in the location, the day moves
by `days`, and the seconds are put together again in 64-bit wrapping arithmetic (a day is
86400 seconds); the zone offset found for the result is taken off, a second lookup
settling it near a transition; the `Time` keeps its seconds from the year 1 in an `int64`
and its nanoseconds as they were. -/
def AddDate (lookup : Int → ZoneSpan) (t days : Int) : Int :=
  let unix := t / 1000000000
  let nsec := t % 1000000000
  let guess := wrapInt (unix + (lookup unix).offset + days * 86400)
  let z := lookup guess
  let offset :=
    if z.offset ≠ 0 then
      let utc := wrapInt (guess - z.offset)
      if utc < z.start ∨ utc ≥ z.stop then (lookup utc).offset else z.offset
    else 0
  let ext := wrapInt (wrapInt (guess - offset) + unixToInternal)
  (ext - unixToInternal) * 1000000000 + nsec

/-- The lookup of the location UTC. -/
def utcLookup : Int → ZoneSpan := fun _ =>
  { offset := 0, start := -9223372036854775808, stop := 9223372036854775807 }

/-- The sample world with the `AddDate` of Go in the location UTC. -/
def goTimeWorld : World := { sampleWorld [] with addDate := AddDate utcLookup }

/-- A world, with the `AddDate` of Go in UTC, whose root holds one daily entry modified
an hour before `now`. -/
def freshEntryWorld : World :=
  { sampleWorld [] with
    addDate := AddDate utcLookup,
    globDirs := fun d => [(d, ["2024-02-29-daily"])],
    stat := fun p => if p = "/bk/2024-02-29-daily" then some 1709287200000000000 else none }

/-! ## Observations on a run -/

/-- Whether an effect is an invocation of the archiver. -/
def isArchiver : Effect → Bool
  | Effect.exec name _ _ => name = "7z"
  | _ => false

/-- Whether an effect is the creation of a directory. -/
def isMkdir : Effect → Bool
  | Effect.mkdirAll _ _ => true
  | _ => false

/-- The command `execBackup` runs: the dump tool through the command interpreter, with
the password appended to the environment. -/
def dumpCmd (w : World) (config : Config) (g : Globals) : Effect :=
  Effect.exec "cmd" (cmdArgs w config g.finalBackupDir)
    (some (w.environ ++ ["PGPASSWORD=" ++ config.PGPASSWORD]))

/-- The effects by which `limpaBackups` ensures the destination directory. -/
def ensureDir (w : World) (dir : String) : List Effect :=
  if w.notExist dir then [Effect.mkdirAll dir 0o755] else []

/-! ## Go `int` arithmetic -/

theorem wrapInt_of_inRange (x : Int) (hlo : minInt ≤ x) (hhi : x ≤ maxInt) : wrapInt x = x := by
  unfold wrapInt
  unfold minInt at hlo
  unfold maxInt at hhi
  omega

theorem negInt_of_ne_min (x : Int) (hlo : minInt < x) (hhi : x ≤ maxInt) : negInt x = -x := by
  unfold negInt
  apply wrapInt_of_inRange
  · unfold minInt maxInt at *
    omega
  · unfold minInt maxInt at *
    omega

theorem mulInt_of_inRange (x y : Int) (hlo : minInt ≤ x * y) (hhi : x * y ≤ maxInt) :
    mulInt x y = x * y :=
  wrapInt_of_inRange _ hlo hhi

/-! ## Dump pipeline -/

/-- The effects of `execBackup`: the dump command, then the tar compression when the
dump succeeds and the format is `t`. -/
theorem execBackup_eq (w : World) (config : Config) (g : Globals) :
    execBackup w config g =
      Effect.exec "cmd" (cmdArgs w config g.finalBackupDir)
          (some (w.environ ++ ["PGPASSWORD=" ++ config.PGPASSWORD])) ::
        (if w.runOk "cmd" (cmdArgs w config g.finalBackupDir) = true ∧ config.Format = "t" then
          compactaTarBackup w (backupFile w config g.finalBackupDir)
        else []) := by
  unfold execBackup
  by_cases hrun : w.runOk "cmd" (cmdArgs w config g.finalBackupDir) = true
  · by_cases ht : config.Format = "t" <;> simp [hrun, ht]
  · simp [hrun]

/-- C6: the artifact path of `execBackup` is the destination directory joined with the
database name followed by `.dump` for format `c` or `d`, by `.tar` for `t` and by `.sql`
for every other format (the empty one included); that path is the argument after `-f`
in the argument list of the dump tool, which `execBackup` runs first. -/
theorem backupFile_extension (w : World) (config : Config) (g : Globals) :
    (config.Format = "c" ∨ config.Format = "d" →
      backupFile w config g.finalBackupDir = w.join g.finalBackupDir (config.Database ++ ".dump")) ∧
    (config.Format = "t" →
      backupFile w config g.finalBackupDir = w.join g.finalBackupDir (config.Database ++ ".tar")) ∧
    (config.Format ≠ "c" → config.Format ≠ "d" → config.Format ≠ "t" →
      backupFile w config g.finalBackupDir = w.join g.finalBackupDir (config.Database ++ ".sql")) ∧
    (config.Format = "" →
      backupFile w config g.finalBackupDir = w.join g.finalBackupDir (config.Database ++ ".sql")) ∧
    pgDumpArgs w config g.finalBackupDir =
      ["--host=" ++ config.Hostname, "--port=" ++ config.DBPort,
       "--username=" ++ config.UserDB, "--format=" ++ config.Format] ++
      ["-f", backupFile w config g.finalBackupDir] ++ [config.Database] ∧
    (execBackup w config g).head? =
      some (Effect.exec "cmd" (["/C", "pg_dump"] ++ pgDumpArgs w config g.finalBackupDir)
        (some (w.environ ++ ["PGPASSWORD=" ++ config.PGPASSWORD]))) := by
  refine ⟨?_, ?_, ?_, ?_, rfl, ?_⟩
  · intro h
    simp [backupFile, h]
  · intro h
    simp [backupFile, h]
  · intro hc hd ht
    simp [backupFile, hc, hd, ht]
  · intro h
    simp [backupFile, h]
  · rw [execBackup_eq]
    rfl

theorem backupFile_extension_witness :
    ({ Config.zero with Format := "t", Database := "orders" } : Config).Format = "t" ∧
    backupFile (sampleWorld []) { Config.zero with Format := "t", Database := "orders" } "/bk/x"
      = "/bk/x/orders.tar" :=
  ⟨rfl, (backupFile_extension (sampleWorld [])
    { Config.zero with Format := "t", Database := "orders" }
    { finalBackupDir := "/bk/x", backupDate := "" }).2.1 rfl⟩

/-- C8: the password is no part of the command line of the dump tool. Two settings records
that differ only in `PGPASSWORD` give the same destination directory and the same argument
list, and the command `execBackup` runs first carries the password only as the entry
`PGPASSWORD=<password>` appended to the process environment; what follows that command is
the same for both records. -/
theorem password_only_in_environment (w : World) (config : Config) (g : Globals)
    (password : String) :
    limpaBackups w { config with PGPASSWORD := password } = limpaBackups w config ∧
    cmdArgs w { config with PGPASSWORD := password } g.finalBackupDir =
      cmdArgs w config g.finalBackupDir ∧
    (execBackup w { config with PGPASSWORD := password } g).head? =
      some (Effect.exec "cmd" (cmdArgs w config g.finalBackupDir)
        (some (w.environ ++ ["PGPASSWORD=" ++ password]))) ∧
    (execBackup w { config with PGPASSWORD := password } g).tail =
      (execBackup w config g).tail := by
  refine ⟨rfl, rfl, ?_, ?_⟩
  · rw [execBackup_eq]
    rfl
  · rw [execBackup_eq, execBackup_eq]
    rfl

/-! ## Compression stage -/

/-- C5: in both compression variants a failing archiver leaves the uncompressed artifact
alone (the archiver call is the only effect), and a succeeding archiver is followed by
exactly one removal, that of the path given to the archiver as source. -/
theorem compression_removes_source_only_on_success (w : World) (config : Config)
    (g : Globals) (artifact : String) :
    (w.runOk "7z" ["a", "-t7z", artifact ++ ".7z", artifact] = false →
      compactaTarBackup w artifact =
        [Effect.exec "7z" ["a", "-t7z", artifact ++ ".7z", artifact] none]) ∧
    (w.runOk "7z" ["a", "-t7z", artifact ++ ".7z", artifact] = true →
      compactaTarBackup w artifact =
        [Effect.exec "7z" ["a", "-t7z", artifact ++ ".7z", artifact] none,
         Effect.remove artifact]) ∧
    (config.Format = "p" →
      w.runOk "7z" ["a", "-t7z",
        w.join g.finalBackupDir (config.Database ++ "_" ++ w.today2 ++ ".7z"),
        w.join g.finalBackupDir (config.Database ++ ".sql")] = false →
      (compactaBackup w config g).2 =
        [Effect.exec "7z" ["a", "-t7z",
          w.join g.finalBackupDir (config.Database ++ "_" ++ w.today2 ++ ".7z"),
          w.join g.finalBackupDir (config.Database ++ ".sql")] none]) ∧
    (config.Format = "p" →
      w.runOk "7z" ["a", "-t7z",
        w.join g.finalBackupDir (config.Database ++ "_" ++ w.today2 ++ ".7z"),
        w.join g.finalBackupDir (config.Database ++ ".sql")] = true →
      (compactaBackup w config g).2 =
        [Effect.exec "7z" ["a", "-t7z",
          w.join g.finalBackupDir (config.Database ++ "_" ++ w.today2 ++ ".7z"),
          w.join g.finalBackupDir (config.Database ++ ".sql")] none,
         Effect.remove (w.join g.finalBackupDir (config.Database ++ ".sql"))]) := by
  refine ⟨?_, ?_, ?_, ?_⟩
  · intro h
    simp [compactaTarBackup, h]
  · intro h
    simp [compactaTarBackup, h]
  · intro hp h
    simp [compactaBackup, hp, h]
  · intro hp h
    simp [compactaBackup, hp, h]

theorem compression_removes_source_only_on_success_witness :
    (sampleWorld []).runOk "7z" ["a", "-t7z", "/bk/x/orders.tar" ++ ".7z", "/bk/x/orders.tar"] = true ∧
    compactaTarBackup (sampleWorld []) "/bk/x/orders.tar" =
      [Effect.exec "7z" ["a", "-t7z", "/bk/x/orders.tar" ++ ".7z", "/bk/x/orders.tar"] none,
       Effect.remove "/bk/x/orders.tar"] :=
  ⟨rfl, (compression_removes_source_only_on_success (sampleWorld []) Config.zero
    { finalBackupDir := "/bk/x", backupDate := "" } "/bk/x/orders.tar").2.1 rfl⟩

/-! ## Retention classifier -/

theorem limpaBackups_eq (w : World) (config : Config) :
    limpaBackups w config =
      if w.weekday = config.DayOfWeekToKeep then
        ({ finalBackupDir := w.join config.BackupDir (w.today ++ "-" ++ "weekly"),
           backupDate := w.today },
         cleanOldBackups w config.BackupDir "weekly" (mulInt config.WeeksToKeep 7) ++
           ensureDir w (w.join config.BackupDir (w.today ++ "-" ++ "weekly")))
      else
        ({ finalBackupDir := w.join config.BackupDir (w.today ++ "-" ++ "daily"),
           backupDate := w.today },
         cleanOldBackups w config.BackupDir "daily" config.DaysToKeep ++
           ensureDir w (w.join config.BackupDir (w.today ++ "-" ++ "daily"))) := by
  unfold limpaBackups ensureDir
  by_cases h : w.weekday = config.DayOfWeekToKeep <;> simp [h]

/-- C3: when the weekday index of the current date equals `DayOfWeekToKeep`, `limpaBackups`
prunes with suffix `weekly` and window `WeeksToKeep*7` (the Go `int` product, which is the
mathematical product whenever that fits) and sets the destination directory to the backup
root joined with `<date>-weekly`; otherwise it prunes with suffix `daily` and window
`DaysToKeep` and the destination is `<date>-daily`. The window reaches `cleanOldBackups` as
it is, whatever its sign. -/
theorem limpaBackups_classification (w : World) (config : Config) :
    (w.weekday = config.DayOfWeekToKeep →
      (limpaBackups w config).1.finalBackupDir =
        w.join config.BackupDir (w.today ++ "-" ++ "weekly") ∧
      (limpaBackups w config).2 =
        cleanOldBackups w config.BackupDir "weekly" (mulInt config.WeeksToKeep 7) ++
          ensureDir w (w.join config.BackupDir (w.today ++ "-" ++ "weekly"))) ∧
    (w.weekday ≠ config.DayOfWeekToKeep →
      (limpaBackups w config).1.finalBackupDir =
        w.join config.BackupDir (w.today ++ "-" ++ "daily") ∧
      (limpaBackups w config).2 =
        cleanOldBackups w config.BackupDir "daily" config.DaysToKeep ++
          ensureDir w (w.join config.BackupDir (w.today ++ "-" ++ "daily"))) ∧
    (minInt ≤ config.WeeksToKeep * 7 → config.WeeksToKeep * 7 ≤ maxInt →
      mulInt config.WeeksToKeep 7 = config.WeeksToKeep * 7) := by
  refine ⟨?_, ?_, mulInt_of_inRange _ _⟩
  · intro h
    rw [limpaBackups_eq, if_pos h]
    exact ⟨rfl, rfl⟩
  · intro h
    rw [limpaBackups_eq, if_neg h]
    exact ⟨rfl, rfl⟩

theorem limpaBackups_classification_witness :
    (sampleWorld []).weekday = fridayConfig.DayOfWeekToKeep ∧
    (limpaBackups (sampleWorld []) fridayConfig).1.finalBackupDir = "/bk/2024-03-01-weekly" ∧
    (limpaBackups (sampleWorld []) fridayConfig).2 =
      [Effect.removeAll "/bk/2024-01-01-weekly", Effect.mkdirAll "/bk/2024-03-01-weekly" 0o755] ∧
    minInt ≤ fridayConfig.WeeksToKeep * 7 ∧ fridayConfig.WeeksToKeep * 7 ≤ maxInt ∧
    mulInt fridayConfig.WeeksToKeep 7 = 28 :=
  ⟨rfl,
   ((limpaBackups_classification (sampleWorld []) fridayConfig).1 rfl).1.trans (by decide),
   ((limpaBackups_classification (sampleWorld []) fridayConfig).1 rfl).2.trans (by decide),
   by decide, by decide,
   ((limpaBackups_classification (sampleWorld []) fridayConfig).2.2
      (by decide) (by decide)).trans (by decide)⟩

/-! ## The whole run -/

theorem main_eq (w : World) (config : Config) (hcfg : carregaConfig w = some config) :
    main w = (limpaBackups w config).2 ++ execBackup w config (limpaBackups w config).1 ++
      (compactaBackup w config (limpaBackups w config).1).2 := by
  unfold main
  rw [hcfg]

theorem filter_isArchiver_clean (w : World) (dir suffix : String) (k : Int) :
    (cleanOldBackups w dir suffix k).filter isArchiver = [] := by
  rw [List.filter_eq_nil_iff]
  intro e he
  unfold cleanOldBackups at he
  simp only [List.mem_filterMap] at he
  obtain ⟨file, _, hfile⟩ := he
  split at hfile
  · exact absurd hfile (by simp)
  · split_ifs at hfile
    simp only [Option.some.injEq] at hfile
    subst hfile
    simp [isArchiver]

theorem filter_isArchiver_limpa (w : World) (config : Config) :
    (limpaBackups w config).2.filter isArchiver = [] := by
  have hens : ∀ dir, (ensureDir w dir).filter isArchiver = [] := by
    intro dir
    unfold ensureDir
    split_ifs <;> simp [isArchiver]
  rw [limpaBackups_eq]
  split_ifs <;> simp [List.filter_append, filter_isArchiver_clean, hens]

/-- C7: in a run whose dump succeeds the archiver invocations follow from the format code.
For `t` there is one, with archive `<artifact>.7z` and source the `.tar` artifact; for `p`
there is one, with archive `<destinationDir>/<database>_<date>.7z` and source
`<destinationDir>/<database>.sql`; for every other format code there is none. -/
theorem archiver_by_format (w : World) (config : Config)
    (hcfg : carregaConfig w = some config)
    (hdump : w.runOk "cmd" (cmdArgs w config (limpaBackups w config).1.finalBackupDir) = true) :
    (config.Format = "t" →
      (main w).filter isArchiver =
        [Effect.exec "7z" ["a", "-t7z",
          w.join (limpaBackups w config).1.finalBackupDir (config.Database ++ ".tar") ++ ".7z",
          w.join (limpaBackups w config).1.finalBackupDir (config.Database ++ ".tar")] none]) ∧
    (config.Format = "p" →
      (main w).filter isArchiver =
        [Effect.exec "7z" ["a", "-t7z",
          w.join (limpaBackups w config).1.finalBackupDir
            (config.Database ++ "_" ++ w.today2 ++ ".7z"),
          w.join (limpaBackups w config).1.finalBackupDir (config.Database ++ ".sql")] none]) ∧
    (config.Format ≠ "t" → config.Format ≠ "p" → (main w).filter isArchiver = []) := by
  have hmain := main_eq w config hcfg
  have hlimpa := filter_isArchiver_limpa w config
  refine ⟨?_, ?_, ?_⟩
  · intro ht
    have hp : config.Format ≠ "p" := by rw [ht]; decide
    have hbf : backupFile w config (limpaBackups w config).1.finalBackupDir =
        w.join (limpaBackups w config).1.finalBackupDir (config.Database ++ ".tar") := by
      simp [backupFile, ht]
    rw [hmain, List.filter_append, List.filter_append, hlimpa, execBackup_eq]
    simp only [hdump, ht, and_self, if_true, hbf]
    unfold compactaTarBackup compactaBackup
    by_cases hz : w.runOk "7z" ["a", "-t7z",
        w.join (limpaBackups w config).1.finalBackupDir (config.Database ++ ".tar") ++ ".7z",
        w.join (limpaBackups w config).1.finalBackupDir (config.Database ++ ".tar")] = true
    · simp [hz, ht, isArchiver]
    · simp [hz, ht, isArchiver]
  · intro hp
    have ht : config.Format ≠ "t" := by rw [hp]; decide
    rw [hmain, List.filter_append, List.filter_append, hlimpa, execBackup_eq]
    unfold compactaBackup
    by_cases hz : w.runOk "7z" ["a", "-t7z",
        w.join (limpaBackups w config).1.finalBackupDir
          (config.Database ++ "_" ++ w.today2 ++ ".7z"),
        w.join (limpaBackups w config).1.finalBackupDir (config.Database ++ ".sql")] = true
    · simp [hz, hp, isArchiver]
    · simp [hz, hp, isArchiver]
  · intro ht hp
    rw [hmain, List.filter_append, List.filter_append, hlimpa, execBackup_eq]
    unfold compactaBackup
    simp [ht, hp, isArchiver]

theorem archiver_by_format_witness :
    carregaConfig (sampleWorld (sampleCfg "t")) = some (sampleConfig "t") ∧
    (sampleWorld (sampleCfg "t")).runOk "cmd"
      (cmdArgs (sampleWorld (sampleCfg "t")) (sampleConfig "t")
        (limpaBackups (sampleWorld (sampleCfg "t")) (sampleConfig "t")).1.finalBackupDir) = true ∧
    (sampleConfig "t").Format = "t" ∧
    (main (sampleWorld (sampleCfg "t"))).filter isArchiver =
      [Effect.exec "7z" ["a", "-t7z", "/bk/2024-03-01-daily/orders.tar.7z",
        "/bk/2024-03-01-daily/orders.tar"] none] :=
  ⟨by decide, rfl, rfl,
   ((archiver_by_format (sampleWorld (sampleCfg "t")) (sampleConfig "t")
      (by decide) rfl).1 rfl).trans (by decide)⟩

theorem filter_isMkdir_clean (w : World) (dir suffix : String) (k : Int) :
    (cleanOldBackups w dir suffix k).filter isMkdir = [] := by
  rw [List.filter_eq_nil_iff]
  intro e he
  unfold cleanOldBackups at he
  simp only [List.mem_filterMap] at he
  obtain ⟨file, _, hfile⟩ := he
  split at hfile
  · exact absurd hfile (by simp)
  · split_ifs at hfile
    simp only [Option.some.injEq] at hfile
    subst hfile
    simp [isMkdir]

theorem compactaTarBackup_eq (w : World) (artifact : String) :
    compactaTarBackup w artifact =
      Effect.exec "7z" ["a", "-t7z", artifact ++ ".7z", artifact] none ::
        (if w.runOk "7z" ["a", "-t7z", artifact ++ ".7z", artifact] = true
         then [Effect.remove artifact] else []) := by
  unfold compactaTarBackup
  by_cases hz : w.runOk "7z" ["a", "-t7z", artifact ++ ".7z", artifact] = true <;> simp [hz]

theorem compactaBackup_effects (w : World) (config : Config) (g : Globals) :
    (compactaBackup w config g).2 =
      if config.Format = "p" then
        Effect.exec "7z" ["a", "-t7z",
            w.join g.finalBackupDir (config.Database ++ "_" ++ w.today2 ++ ".7z"),
            w.join g.finalBackupDir (config.Database ++ ".sql")] none ::
          (if w.runOk "7z" ["a", "-t7z",
              w.join g.finalBackupDir (config.Database ++ "_" ++ w.today2 ++ ".7z"),
              w.join g.finalBackupDir (config.Database ++ ".sql")] = true
           then [Effect.remove (w.join g.finalBackupDir (config.Database ++ ".sql"))]
           else [])
      else [] := by
  unfold compactaBackup
  by_cases hp : config.Format = "p"
  · by_cases hz : w.runOk "7z" ["a", "-t7z",
        w.join g.finalBackupDir (config.Database ++ "_" ++ w.today2 ++ ".7z"),
        w.join g.finalBackupDir (config.Database ++ ".sql")] = true <;> simp [hp, hz]
  · simp [hp]

theorem filter_isMkdir_compactaTar (w : World) (artifact : String) :
    (compactaTarBackup w artifact).filter isMkdir = [] := by
  rw [compactaTarBackup_eq]
  split_ifs <;> simp [isMkdir]

theorem filter_isMkdir_compacta (w : World) (config : Config) (g : Globals) :
    (compactaBackup w config g).2.filter isMkdir = [] := by
  rw [compactaBackup_effects]
  split_ifs <;> simp [isMkdir]

/-- The effects of `limpaBackups` are a pruning pass, which creates nothing, followed by
the effects that ensure the destination directory. -/
theorem limpaBackups_effects (w : World) (config : Config) :
    ∃ pruned, pruned.filter isMkdir = [] ∧
      (limpaBackups w config).2 =
        pruned ++ ensureDir w (limpaBackups w config).1.finalBackupDir := by
  rw [limpaBackups_eq]
  split_ifs
  · exact ⟨_, filter_isMkdir_clean w _ _ _, rfl⟩
  · exact ⟨_, filter_isMkdir_clean w _ _ _, rfl⟩

theorem execBackup_failed (w : World) (config : Config) (g : Globals)
    (hfail : w.runOk "cmd" (cmdArgs w config g.finalBackupDir) = false) :
    execBackup w config g = [dumpCmd w config g] := by
  rw [execBackup_eq]
  simp [hfail, dumpCmd]

/-- After a failed dump with the format `p` the run goes on with `compactaBackup`: the
archiver is invoked on the `.sql` path, which is removed when the archiver succeeds. -/
theorem failed_dump_plain (w : World) (config : Config)
    (hcfg : carregaConfig w = some config)
    (hfail : w.runOk "cmd" (cmdArgs w config (limpaBackups w config).1.finalBackupDir) = false)
    (hp : config.Format = "p") :
    main w = (limpaBackups w config).2 ++ [dumpCmd w config (limpaBackups w config).1] ++
      Effect.exec "7z" ["a", "-t7z",
          w.join (limpaBackups w config).1.finalBackupDir
            (config.Database ++ "_" ++ w.today2 ++ ".7z"),
          w.join (limpaBackups w config).1.finalBackupDir (config.Database ++ ".sql")] none ::
        (if w.runOk "7z" ["a", "-t7z",
            w.join (limpaBackups w config).1.finalBackupDir
              (config.Database ++ "_" ++ w.today2 ++ ".7z"),
            w.join (limpaBackups w config).1.finalBackupDir (config.Database ++ ".sql")] = true
         then [Effect.remove
            (w.join (limpaBackups w config).1.finalBackupDir (config.Database ++ ".sql"))]
         else []) := by
  rw [main_eq w config hcfg, execBackup_failed w config _ hfail, compactaBackup_effects,
    if_pos hp]

/-- After a dump tool that exits non-zero `execBackup` does nothing more (no tar archiver,
no removal), and for every format code other than `p` the run ends there: its effects are
those of `limpaBackups` followed by the dump command alone. -/
theorem failed_dump_effects (w : World) (config : Config)
    (hcfg : carregaConfig w = some config)
    (hfail : w.runOk "cmd" (cmdArgs w config (limpaBackups w config).1.finalBackupDir) = false) :
    execBackup w config (limpaBackups w config).1 = [dumpCmd w config (limpaBackups w config).1] ∧
    (config.Format ≠ "p" →
      main w = (limpaBackups w config).2 ++ [dumpCmd w config (limpaBackups w config).1]) := by
  have hexec := execBackup_failed w config _ hfail
  refine ⟨hexec, ?_⟩
  intro hp
  rw [main_eq w config hcfg, hexec, compactaBackup_effects, if_neg hp, List.append_nil]

theorem failed_dump_effects_witness :
    carregaConfig (failedDumpWorld (sampleCfg "t")) = some (sampleConfig "t") ∧
    (failedDumpWorld (sampleCfg "t")).runOk "cmd"
      (cmdArgs (failedDumpWorld (sampleCfg "t")) (sampleConfig "t")
        (limpaBackups (failedDumpWorld (sampleCfg "t")) (sampleConfig "t")).1.finalBackupDir)
      = false ∧
    (sampleConfig "t").Format ≠ "p" ∧
    main (failedDumpWorld (sampleCfg "t")) =
      [Effect.removeAll "/bk/2024-01-01-daily", Effect.mkdirAll "/bk/2024-03-01-daily" 0o755,
       Effect.exec "cmd" ["/C", "pg_dump", "--host=db1", "--port=5432", "--username=postgres",
         "--format=t", "-f", "/bk/2024-03-01-daily/orders.tar", "orders"]
         (some ["PATH=/bin", "PGPASSWORD=s3cret"])] :=
  ⟨by decide, rfl, by decide,
   ((failed_dump_effects (failedDumpWorld (sampleCfg "t")) (sampleConfig "t")
      (by decide) rfl).2 (by decide)).trans (by decide)⟩

/-- C4: a run whose dump tool exits non-zero should perform no further stage, as the tar
variant does, which compresses only after a successful dump. The code breaks this for the
format `p`: the dump tool exits non-zero, and the run still invokes the archiver on the
`.sql` path and then removes that file. -/
theorem failed_dump_plain_still_compresses :
    carregaConfig (failedDumpWorld (sampleCfg "p")) = some (sampleConfig "p") ∧
    (failedDumpWorld (sampleCfg "p")).runOk "cmd"
      (cmdArgs (failedDumpWorld (sampleCfg "p")) (sampleConfig "p")
        (limpaBackups (failedDumpWorld (sampleCfg "p")) (sampleConfig "p")).1.finalBackupDir)
      = false ∧
    main (failedDumpWorld (sampleCfg "p")) =
      [Effect.removeAll "/bk/2024-01-01-daily", Effect.mkdirAll "/bk/2024-03-01-daily" 0o755,
       Effect.exec "cmd" ["/C", "pg_dump", "--host=db1", "--port=5432", "--username=postgres",
         "--format=p", "-f", "/bk/2024-03-01-daily/orders.sql", "orders"]
         (some ["PATH=/bin", "PGPASSWORD=s3cret"]),
       Effect.exec "7z" ["a", "-t7z", "/bk/2024-03-01-daily/orders_2024-03-01.7z",
         "/bk/2024-03-01-daily/orders.sql"] none,
       Effect.remove "/bk/2024-03-01-daily/orders.sql"] := by
  decide

/-- C10, amended: when the destination directory is reported missing, `limpaBackups` calls
`MkdirAll` on it once with mode 0755 and never looks at the result: the run is the same
whether the creation fails or not, and the dump tool is invoked next. When the directory
is not reported missing (it exists), no directory is created. -/
theorem ensure_dir_result_ignored (w : World) (config : Config)
    (hcfg : carregaConfig w = some config) :
    (w.notExist (limpaBackups w config).1.finalBackupDir = true →
      (main w).filter isMkdir =
        [Effect.mkdirAll (limpaBackups w config).1.finalBackupDir 0o755]) ∧
    (w.notExist (limpaBackups w config).1.finalBackupDir = false →
      (main w).filter isMkdir = []) ∧
    (∀ fails : String → Bool, main { w with mkdirFails := fails } = main w) ∧
    (∃ pruned rest, pruned.filter isMkdir = [] ∧
      main w = pruned ++ ensureDir w (limpaBackups w config).1.finalBackupDir ++
        dumpCmd w config (limpaBackups w config).1 :: rest) := by
  obtain ⟨pruned, hpruned, hlimpa⟩ := limpaBackups_effects w config
  have hmain : main w = pruned ++ ensureDir w (limpaBackups w config).1.finalBackupDir ++
      dumpCmd w config (limpaBackups w config).1 ::
        ((if w.runOk "cmd" (cmdArgs w config (limpaBackups w config).1.finalBackupDir) = true ∧
            config.Format = "t" then
          compactaTarBackup w (backupFile w config (limpaBackups w config).1.finalBackupDir)
        else []) ++ (compactaBackup w config (limpaBackups w config).1).2) := by
    rw [main_eq w config hcfg, execBackup_eq, hlimpa]
    simp [dumpCmd]
  have hrest : (dumpCmd w config (limpaBackups w config).1 ::
        ((if w.runOk "cmd" (cmdArgs w config (limpaBackups w config).1.finalBackupDir) = true ∧
            config.Format = "t" then
          compactaTarBackup w (backupFile w config (limpaBackups w config).1.finalBackupDir)
        else []) ++ (compactaBackup w config (limpaBackups w config).1).2)).filter isMkdir
      = [] := by
    rw [List.filter_cons, List.filter_append, filter_isMkdir_compacta]
    split_ifs <;> simp_all [dumpCmd, isMkdir, filter_isMkdir_compactaTar]
  refine ⟨?_, ?_, fun _ => rfl, ⟨pruned, _, hpruned, hmain⟩⟩
  · intro hne
    rw [hmain, List.filter_append, List.filter_append, hpruned, hrest]
    simp [ensureDir, hne, isMkdir]
  · intro hne
    rw [hmain, List.filter_append, List.filter_append, hpruned, hrest]
    simp [ensureDir, hne]

theorem ensure_dir_result_ignored_witness :
    carregaConfig (mkdirFailWorld (sampleCfg "c")) = some (sampleConfig "c") ∧
    (mkdirFailWorld (sampleCfg "c")).notExist
      (limpaBackups (mkdirFailWorld (sampleCfg "c")) (sampleConfig "c")).1.finalBackupDir = true ∧
    (main (mkdirFailWorld (sampleCfg "c"))).filter isMkdir =
      [Effect.mkdirAll "/bk/2024-03-01-daily" 0o755] :=
  ⟨by decide, rfl,
   ((ensure_dir_result_ignored (mkdirFailWorld (sampleCfg "c")) (sampleConfig "c")
      (by decide)).1 rfl).trans (by decide)⟩

/-- C10 as stated fails: the destination directory is missing, its creation fails, and
the run still invokes the dump tool and then the archiver. -/
theorem mkdir_failure_does_not_abort :
    (mkdirFailWorld (sampleCfg "t")).notExist "/bk/2024-03-01-daily" = true ∧
    (mkdirFailWorld (sampleCfg "t")).mkdirFails "/bk/2024-03-01-daily" = true ∧
    main (mkdirFailWorld (sampleCfg "t")) =
      [Effect.removeAll "/bk/2024-01-01-daily", Effect.mkdirAll "/bk/2024-03-01-daily" 0o755,
       Effect.exec "cmd" ["/C", "pg_dump", "--host=db1", "--port=5432", "--username=postgres",
         "--format=t", "-f", "/bk/2024-03-01-daily/orders.tar", "orders"]
         (some ["PATH=/bin", "PGPASSWORD=s3cret"]),
       Effect.exec "7z" ["a", "-t7z", "/bk/2024-03-01-daily/orders.tar.7z",
         "/bk/2024-03-01-daily/orders.tar"] none,
       Effect.remove "/bk/2024-03-01-daily/orders.tar"] := by
  decide

/-! ## Backup pruner -/

theorem matchChunk_some (chunk s t : List Char) (h : matchChunk chunk s = some t) :
    s = chunk ++ t := by
  induction chunk generalizing s with
  | nil =>
    simp only [matchChunk, Option.some.injEq] at h
    simp [h]
  | cons p ps ih =>
    cases s with
    | nil => simp [matchChunk] at h
    | cons c cs =>
      simp only [matchChunk] at h
      split_ifs at h with hpc
      rw [hpc, ih cs h]
      rfl

theorem starSkip_suffix (sep : Char) (chunk s : List Char) (h : starSkip sep chunk s = true) :
    chunk <:+ s := by
  induction s with
  | nil => simp [starSkip] at h
  | cons c rest ih =>
    simp only [starSkip] at h
    split_ifs at h with hsep hm
    · have hrest := matchChunk_some chunk rest [] hm
      rw [List.append_nil] at hrest
      rw [hrest]
      exact List.suffix_cons c chunk
    · exact (ih h).trans (List.suffix_cons c rest)

/-- A name that matches the pattern `*-<suffix>` ends in `-<suffix>`. -/
theorem Match_star_suffix (sep : Char) (suffix name : String)
    (h : Match sep ("*-" ++ suffix) name = true) : ("-" ++ suffix).data <:+ name.data := by
  have hpat : ("*-" ++ suffix).data = '*' :: ('-' :: suffix.data) := by
    rw [String.data_append]
    rfl
  have hchunk : ("-" ++ suffix).data = '-' :: suffix.data := by
    rw [String.data_append]
    rfl
  unfold Match at h
  rw [hpat] at h
  simp only [reduceCtorEq, if_false] at h
  rw [hchunk]
  split_ifs at h with hm
  · have hname := matchChunk_some _ _ _ hm
    rw [List.append_nil] at hname
    rw [hname]
  · exact starSkip_suffix sep _ _ h

theorem mem_Glob (w : World) (root suffix file : String) :
    file ∈ Glob w root suffix ↔
      ∃ dn ∈ w.globDirs root, ∃ n ∈ dn.2,
        Match w.separator ("*-" ++ suffix) n = true ∧ file = w.join dn.1 n := by
  unfold Glob
  simp only [List.mem_flatMap, List.mem_map, List.mem_filter]
  constructor
  · rintro ⟨dn, hdn, n, ⟨hn, hm⟩, rfl⟩
    exact ⟨dn, hdn, n, hn, hm, rfl⟩
  · rintro ⟨dn, hdn, n, hn, hm, rfl⟩
    exact ⟨dn, hdn, n, ⟨hn, hm⟩, rfl⟩

theorem mem_cleanOldBackups (w : World) (root suffix : String) (k : Int) (e : Effect) :
    e ∈ cleanOldBackups w root suffix k ↔
      ∃ file ∈ Glob w root suffix, ∃ m, w.stat file = some m ∧
        m < w.addDate w.now (negInt k) ∧ e = Effect.removeAll file := by
  unfold cleanOldBackups
  simp only [List.mem_filterMap]
  constructor
  · rintro ⟨file, hfile, h⟩
    split at h
    · exact absurd h (by simp)
    · rename_i m hm
      split_ifs at h with hlt
      simp only [Option.some.injEq] at h
      exact ⟨file, hfile, m, hm, hlt, h.symm⟩
  · rintro ⟨file, hfile, m, hm, hlt, rfl⟩
    refine ⟨file, hfile, ?_⟩
    rw [hm]
    simp [hlt]

/-- In a zone of constant offset, and as long as no count of seconds leaves `int64`,
`AddDate` moves the instant by whole days of 86400 seconds. -/
theorem AddDate_of_inRange (lookup : Int → ZoneSpan) (off t days : Int)
    (hzone : ∀ u, (lookup u).offset = off)
    (hlocal : minInt ≤ t / 1000000000 + off + days * 86400 ∧
      t / 1000000000 + off + days * 86400 ≤ maxInt)
    (hutc : minInt ≤ t / 1000000000 + days * 86400 ∧
      t / 1000000000 + days * 86400 + unixToInternal ≤ maxInt) :
    AddDate lookup t days = t + days * 86400000000000 := by
  have hoff : (if off ≠ 0 then off else 0) = off := by
    by_cases h0 : off = 0
    · simp [h0]
    · simp [h0]
  unfold unixToInternal at hutc
  have hguess : wrapInt (t / 1000000000 + off + days * 86400) =
      t / 1000000000 + off + days * 86400 :=
    wrapInt_of_inRange _ hlocal.1 hlocal.2
  have hsub : t / 1000000000 + off + days * 86400 - off = t / 1000000000 + days * 86400 := by
    omega
  have hunix : wrapInt (t / 1000000000 + days * 86400) = t / 1000000000 + days * 86400 :=
    wrapInt_of_inRange _ hutc.1 (by unfold maxInt at *; omega)
  have hext : wrapInt (t / 1000000000 + days * 86400 + 62135596800) =
      t / 1000000000 + days * 86400 + 62135596800 :=
    wrapInt_of_inRange _ (by unfold minInt at *; omega) hutc.2
  unfold AddDate
  simp only [hzone, ite_self, hoff, hguess, hsub, hunix, unixToInternal, hext]
  omega

/-- C1, amended: for a root without glob metacharacters (the pattern lists the root
itself), either retention class, any keep window and any instant, an entry the root lists
whose name matches `*-<suffix>` and whose stat succeeds is handed to `os.RemoveAll` exactly
when its modification time is strictly before the cutoff `now.AddDate(0, 0, -keepDays)`,
and at the cutoff instant it is kept. That cutoff is `now` minus `keepDays` days of 86400
seconds in a zone of constant offset whenever `keepDays` is not the smallest `int` and no
count of seconds leaves `int64`; the arithmetic wraps otherwise. -/
theorem prune_iff_before_cutoff (w : World) (root : String) (cls : RetentionClass)
    (keepDays : Int) (names : List String) (n : String) (modTime : Int)
    (lookup : Int → ZoneSpan)
    (htime : ∀ t days, w.addDate t days = AddDate lookup t days)
    (hroot : w.globDirs root = [(root, names)])
    (hn : n ∈ names)
    (hmatch : Match w.separator ("*-" ++ cls.suffix) n = true)
    (hstat : w.stat (w.join root n) = some modTime) :
    (Effect.removeAll (w.join root n) ∈ cleanOldBackups w root cls.suffix keepDays ↔
      modTime < AddDate lookup w.now (negInt keepDays)) ∧
    (modTime = AddDate lookup w.now (negInt keepDays) →
      Effect.removeAll (w.join root n) ∉ cleanOldBackups w root cls.suffix keepDays) ∧
    (∀ off, (∀ u, (lookup u).offset = off) →
      minInt < keepDays → keepDays ≤ maxInt →
      minInt ≤ w.now / 1000000000 + off - keepDays * 86400 →
      w.now / 1000000000 + off - keepDays * 86400 ≤ maxInt →
      minInt ≤ w.now / 1000000000 - keepDays * 86400 →
      w.now / 1000000000 - keepDays * 86400 + unixToInternal ≤ maxInt →
      AddDate lookup w.now (negInt keepDays) = w.now - keepDays * 86400000000000) := by
  have hiff : Effect.removeAll (w.join root n) ∈ cleanOldBackups w root cls.suffix keepDays ↔
      modTime < AddDate lookup w.now (negInt keepDays) := by
    rw [mem_cleanOldBackups, htime]
    constructor
    · rintro ⟨file, _, m, hm, hlt, he⟩
      simp only [Effect.removeAll.injEq] at he
      rw [← he, hstat] at hm
      simp only [Option.some.injEq] at hm
      rw [hm]
      exact hlt
    · intro hlt
      refine ⟨w.join root n, ?_, modTime, hstat, hlt, rfl⟩
      rw [mem_Glob, hroot]
      exact ⟨(root, names), List.mem_singleton.mpr rfl, n, hn, hmatch, rfl⟩
  refine ⟨hiff, ?_, ?_⟩
  · intro heq hmem
    have hlt := hiff.mp hmem
    rw [heq] at hlt
    exact lt_irrefl _ hlt
  · intro off hzone hk1 hk2 h1 h2 h3 h4
    rw [negInt_of_ne_min keepDays hk1 hk2,
      AddDate_of_inRange lookup off w.now (-keepDays) hzone
        ⟨by omega, by omega⟩ ⟨by omega, by omega⟩]
    omega

theorem prune_iff_before_cutoff_witness :
    (∀ t days, goTimeWorld.addDate t days = AddDate utcLookup t days) ∧
    goTimeWorld.globDirs "/bk" =
      [("/bk", ["2024-01-01-daily", "2024-01-01-weekly", "2024-02-23-daily", "notes"])] ∧
    "2024-02-23-daily" ∈ ["2024-01-01-daily", "2024-01-01-weekly", "2024-02-23-daily", "notes"] ∧
    Match goTimeWorld.separator ("*-" ++ RetentionClass.daily.suffix) "2024-02-23-daily"
      = true ∧
    goTimeWorld.stat (goTimeWorld.join "/bk" "2024-02-23-daily") = some 1708686000000000000 ∧
    (1708686000000000000 : Int) = AddDate utcLookup goTimeWorld.now (negInt 7) ∧
    Effect.removeAll (goTimeWorld.join "/bk" "2024-02-23-daily") ∉
      cleanOldBackups goTimeWorld "/bk" RetentionClass.daily.suffix 7 ∧
    (∀ u, (utcLookup u).offset = 0) ∧ minInt < 7 ∧ (7 : Int) ≤ maxInt ∧
    minInt ≤ goTimeWorld.now / 1000000000 + 0 - 7 * 86400 ∧
    goTimeWorld.now / 1000000000 + 0 - 7 * 86400 ≤ maxInt ∧
    minInt ≤ goTimeWorld.now / 1000000000 - 7 * 86400 ∧
    goTimeWorld.now / 1000000000 - 7 * 86400 + unixToInternal ≤ maxInt ∧
    AddDate utcLookup goTimeWorld.now (negInt 7) = goTimeWorld.now - 7 * 86400000000000 :=
  ⟨fun _ _ => rfl, rfl, by decide, by decide, by decide, by decide,
   (prune_iff_before_cutoff goTimeWorld "/bk" RetentionClass.daily 7
      ["2024-01-01-daily", "2024-01-01-weekly", "2024-02-23-daily", "notes"]
      "2024-02-23-daily" 1708686000000000000 utcLookup
      (fun _ _ => rfl) rfl (by decide) (by decide) (by decide)).2.1 (by decide),
   fun _ => rfl, by decide, by decide, by decide, by decide, by decide, by decide,
   (prune_iff_before_cutoff goTimeWorld "/bk" RetentionClass.daily 7
      ["2024-01-01-daily", "2024-01-01-weekly", "2024-02-23-daily", "notes"]
      "2024-02-23-daily" 1708686000000000000 utcLookup
      (fun _ _ => rfl) rfl (by decide) (by decide) (by decide)).2.2 0 (fun _ => rfl)
      (by decide) (by decide) (by decide) (by decide) (by decide) (by decide)⟩

/-- C1 as stated fails at the largest `int`, the window `loadConfig` stores for
`DAYS_TO_KEEP=99999999999999999999`: `now` minus that many days lies far before an entry
modified an hour ago, yet the day arithmetic of `AddDate` wraps, the cutoff is `now` plus
one day, and the entry is removed. At the smallest `int` the cutoff is `now` itself. -/
theorem huge_window_removes_fresh_entry :
    (∀ t days, freshEntryWorld.addDate t days = AddDate utcLookup t days) ∧
    freshEntryWorld.globDirs "/bk" = [("/bk", ["2024-02-29-daily"])] ∧
    Match freshEntryWorld.separator ("*-" ++ RetentionClass.daily.suffix) "2024-02-29-daily"
      = true ∧
    freshEntryWorld.stat (freshEntryWorld.join "/bk" "2024-02-29-daily") =
      some (freshEntryWorld.now - 3600000000000) ∧
    ¬ (freshEntryWorld.now - 3600000000000 < freshEntryWorld.now - maxInt * 86400000000000) ∧
    AddDate utcLookup freshEntryWorld.now (negInt maxInt) =
      freshEntryWorld.now + 86400000000000 ∧
    AddDate utcLookup freshEntryWorld.now (negInt minInt) = freshEntryWorld.now ∧
    Effect.removeAll (freshEntryWorld.join "/bk" "2024-02-29-daily") ∈
      cleanOldBackups freshEntryWorld "/bk" RetentionClass.daily.suffix maxInt ∧
    (loadConfig (some (["DAYS_TO_KEEP=99999999999999999999"], false))).map Config.DaysToKeep =
      some maxInt :=
  ⟨fun _ _ => rfl, rfl, by decide, by decide, by decide, by decide, by decide, by decide,
   by decide⟩

theorem weekly_not_daily (name : List Char) (hw : "-weekly".data <:+ name) :
    ¬ "-daily".data <:+ name := by
  intro hd
  rcases List.suffix_or_suffix_of_suffix hw hd with h | h
  · exact absurd h (by decide)
  · exact absurd h (by decide)

/-- C2: whatever the root, the keep window and the class, every path `cleanOldBackups`
hands to `os.RemoveAll` is an entry, of a directory the pattern lists, whose name ends in
`-<suffix>`. An entry of the root whose name does not end in `-<suffix>` is never removed
(paths of listed entries being told apart by their names): a `daily` prune leaves every
`*-weekly` entry alone and a `weekly` prune every `*-daily` entry. -/
theorem prune_only_own_suffix (w : World) (root : String) (cls : RetentionClass)
    (keepDays : Int) :
    (∀ e ∈ cleanOldBackups w root cls.suffix keepDays,
      ∃ dn ∈ w.globDirs root, ∃ n ∈ dn.2,
        e = Effect.removeAll (w.join dn.1 n) ∧ ("-" ++ cls.suffix).data <:+ n.data) ∧
    (∀ n : String,
      (∀ dn ∈ w.globDirs root, ∀ a ∈ dn.2, w.join dn.1 a = w.join root n → a = n) →
      (¬ ("-" ++ cls.suffix).data <:+ n.data →
        Effect.removeAll (w.join root n) ∉ cleanOldBackups w root cls.suffix keepDays) ∧
      ("-weekly".data <:+ n.data →
        Effect.removeAll (w.join root n) ∉
          cleanOldBackups w root RetentionClass.daily.suffix keepDays) ∧
      ("-daily".data <:+ n.data →
        Effect.removeAll (w.join root n) ∉
          cleanOldBackups w root RetentionClass.weekly.suffix keepDays)) := by
  have hall : ∀ sfx : String, ∀ e ∈ cleanOldBackups w root sfx keepDays,
      ∃ dn ∈ w.globDirs root, ∃ n ∈ dn.2,
        e = Effect.removeAll (w.join dn.1 n) ∧ ("-" ++ sfx).data <:+ n.data := by
    intro sfx e he
    rw [mem_cleanOldBackups] at he
    obtain ⟨file, hfile, m, _, _, rfl⟩ := he
    rw [mem_Glob] at hfile
    obtain ⟨dn, hdn, n, hn, hm, rfl⟩ := hfile
    exact ⟨dn, hdn, n, hn, rfl, Match_star_suffix _ _ _ hm⟩
  have hkeep : ∀ sfx n : String,
      (∀ dn ∈ w.globDirs root, ∀ a ∈ dn.2, w.join dn.1 a = w.join root n → a = n) →
      ¬ ("-" ++ sfx).data <:+ n.data →
      Effect.removeAll (w.join root n) ∉ cleanOldBackups w root sfx keepDays := by
    intro sfx n hnames hns hmem
    obtain ⟨dn, hdn, a, ha, he, hsfx⟩ := hall sfx _ hmem
    simp only [Effect.removeAll.injEq] at he
    rw [hnames dn hdn a ha he.symm] at hsfx
    exact hns hsfx
  refine ⟨hall cls.suffix, fun n hnames => ⟨hkeep cls.suffix n hnames, ?_, ?_⟩⟩
  · intro hw
    exact hkeep "daily" n hnames (weekly_not_daily _ hw)
  · intro hd
    exact hkeep "weekly" n hnames (fun hw => weekly_not_daily _ hw hd)

theorem prune_only_own_suffix_witness :
    (∀ dn ∈ (sampleWorld []).globDirs "/bk", ∀ a ∈ dn.2,
      (sampleWorld []).join dn.1 a = (sampleWorld []).join "/bk" "2024-01-01-weekly" →
        a = "2024-01-01-weekly") ∧
    "-weekly".data <:+ "2024-01-01-weekly".data ∧
    (sampleWorld []).stat "/bk/2024-01-01-weekly" = some 1704106800000000000 ∧
    1704106800000000000 < (sampleWorld []).addDate (sampleWorld []).now (negInt 7) ∧
    Effect.removeAll ((sampleWorld []).join "/bk" "2024-01-01-weekly") ∉
      cleanOldBackups (sampleWorld []) "/bk" RetentionClass.daily.suffix 7 :=
  ⟨by decide, by decide, by decide, by decide,
   ((prune_only_own_suffix (sampleWorld []) "/bk" RetentionClass.daily 7).2
      "2024-01-01-weekly" (by decide)).2.1 (by decide)⟩

/-! ## Configuration loader: `strconv.Atoi` -/

theorem digitOf_le (c : Char) (d : Nat) (h : digitOf c = some d) : d ≤ 9 := by
  unfold digitOf at h
  split_ifs at h with hc
  simp only [Option.some.injEq] at h
  omega

theorem decimalValue_ge (n : Nat) (cs : List Char) : n ≤ decimalValue n cs := by
  induction cs generalizing n with
  | nil => exact le_refl n
  | cons c cs ih =>
    simp only [decimalValue]
    exact le_trans (by omega) (ih _)

theorem leadingDigits_cons_digit (c : Char) (cs : List Char) (d : Nat)
    (h : digitOf c = some d) : leadingDigits (c :: cs) = c :: leadingDigits cs := by
  simp [leadingDigits, List.takeWhile_cons, h]

theorem leadingDigits_cons_other (c : Char) (cs : List Char) (h : digitOf c = none) :
    leadingDigits (c :: cs) = [] := by
  simp [leadingDigits, List.takeWhile_cons, h]

/-- The loop of `ParseUint` in terms of the digits read: a range error as soon as the
leading digits exceed 64 bits, else a syntax error at a non-digit, else the value. -/
theorem parseUintLoop_spec (n : Nat) (cs : List Char) (hn : n < 18446744073709551616) :
    parseUintLoop n cs =
      if 18446744073709551616 ≤ decimalValue n (leadingDigits cs) then
        (maxUint64, some NumError.range)
      else if leadingDigits cs ≠ cs then (0, some NumError.invalid)
      else (decimalValue n cs, none) := by
  induction cs generalizing n with
  | nil =>
    have h0 : ¬ 18446744073709551616 ≤ n := by omega
    simp [parseUintLoop, leadingDigits, decimalValue, h0]
  | cons c cs ih =>
    cases hd : digitOf c with
    | none =>
      have h0 : ¬ 18446744073709551616 ≤ n := by omega
      simp [parseUintLoop, hd, leadingDigits_cons_other c cs hd, decimalValue, h0]
    | some d =>
      have hd9 := digitOf_le c d hd
      have hval : decimalValue n (leadingDigits (c :: cs)) =
          decimalValue (n * 10 + d) (leadingDigits cs) := by
        rw [leadingDigits_cons_digit c cs d hd]
        simp [decimalValue, hd]
      have hval2 : decimalValue n (c :: cs) = decimalValue (n * 10 + d) cs := by
        simp [decimalValue, hd]
      have hne : leadingDigits (c :: cs) ≠ c :: cs ↔ leadingDigits cs ≠ cs := by
        rw [leadingDigits_cons_digit c cs d hd]
        simp
      have hge := decimalValue_ge (n * 10 + d) (leadingDigits cs)
      simp only [parseUintLoop, hd, maxUint64]
      rw [hval, hval2]
      by_cases hcut : n ≥ 18446744073709551615 / 10 + 1
      · have hbig : 18446744073709551616 ≤ decimalValue (n * 10 + d) (leadingDigits cs) := by
          omega
        simp [hcut, hbig]
      · by_cases hov : 18446744073709551616 ≤ n * 10 + d
        · have hbig : 18446744073709551616 ≤ decimalValue (n * 10 + d) (leadingDigits cs) := by
            omega
          have h1 : (n * 10 % 18446744073709551616 + d) % 18446744073709551616 <
              n * 10 % 18446744073709551616 ∨
              (n * 10 % 18446744073709551616 + d) % 18446744073709551616 >
                18446744073709551615 := by
            left
            omega
          simp only [hcut, if_false, h1, if_true, hbig]
        · have h1 : ¬ ((n * 10 % 18446744073709551616 + d) % 18446744073709551616 <
              n * 10 % 18446744073709551616 ∨
              (n * 10 % 18446744073709551616 + d) % 18446744073709551616 >
                18446744073709551615) := by
            omega
          have h2 : (n * 10 % 18446744073709551616 + d) % 18446744073709551616 = n * 10 + d := by
            omega
          simp only [hcut, if_false]
          rw [if_neg h1, h2, ih (n * 10 + d) (by omega)]
          by_cases hb : 18446744073709551616 ≤ decimalValue (n * 10 + d) (leadingDigits cs)
          · simp [hb, maxUint64]
          · by_cases hl : leadingDigits cs ≠ cs
            · simp [hb, hl, hne]
            · simp [hb, hl, hne]

theorem atoiLoop_none (n : Int) (cs : List Char) (c : Char) (hc : c ∈ cs)
    (hd : digitOf c = none) : atoiLoop n cs = none := by
  induction cs generalizing n with
  | nil => simp at hc
  | cons x xs ih =>
    cases hx : digitOf x with
    | none => simp [atoiLoop, hx]
    | some d =>
      simp only [atoiLoop, hx]
      rcases List.mem_cons.mp hc with h | h
      · rw [h, hx] at hd
        exact absurd hd (by simp)
      · exact ih _ h

theorem length_le_byteLen (cs : List Char) : cs.length ≤ byteLen cs := by
  induction cs with
  | nil => simp [byteLen]
  | cons c cs ih =>
    have hpos := Char.utf8Size_pos c
    simp only [byteLen, List.map_cons, List.sum_cons, List.length_cons] at *
    omega

theorem length_unsigned_le (s : List Char) : (unsigned s).length ≤ s.length := by
  unfold unsigned
  split_ifs
  · simp
  · exact le_refl _

theorem decimalValue_lt (n : Nat) (cs : List Char)
    (hall : ∀ c ∈ cs, (digitOf c).isSome = true) :
    decimalValue n cs < (n + 1) * 10 ^ cs.length := by
  induction cs generalizing n with
  | nil => simp [decimalValue]
  | cons c cs ih =>
    have hc := hall c (List.mem_cons_self c cs)
    obtain ⟨d, hd⟩ := Option.isSome_iff_exists.mp hc
    have hd9 := digitOf_le c d hd
    have hrec := ih (n * 10 + d) (fun x hx => hall x (List.mem_cons_of_mem c hx))
    simp only [decimalValue, hd, Option.getD_some, List.length_cons]
    calc decimalValue (n * 10 + d) cs
        < (n * 10 + d + 1) * 10 ^ cs.length := hrec
      _ ≤ ((n + 1) * 10) * 10 ^ cs.length := Nat.mul_le_mul_right _ (by omega)
      _ = (n + 1) * 10 ^ (cs.length + 1) := by rw [pow_succ]; ring

theorem leadingDigits_all (cs : List Char) :
    ∀ c ∈ leadingDigits cs, (digitOf c).isSome = true := by
  intro c hc
  unfold leadingDigits at hc
  exact List.mem_takeWhile_imp (p := fun c => (digitOf c).isSome) hc

/-- On the fast path of `Atoi` the leading digits are too few to leave 64 bits. -/
theorem leadingDigits_small (s : List Char) (hlen : byteLen s < 19) :
    decimalValue 0 (leadingDigits (unsigned s)) < 1000000000000000000 := by
  have h1 := decimalValue_lt 0 _ (leadingDigits_all (unsigned s))
  have h2 : (leadingDigits (unsigned s)).length ≤ 18 := by
    have ha : (leadingDigits (unsigned s)).length ≤ (unsigned s).length :=
      (List.takeWhile_sublist _).length_le
    have hb := length_unsigned_le s
    have hc := length_le_byteLen s
    omega
  have h3 : 10 ^ (leadingDigits (unsigned s)).length ≤ 10 ^ 18 :=
    Nat.pow_le_pow_right (by decide) h2
  have h4 : (10 : Nat) ^ 18 = 1000000000000000000 := by norm_num
  omega

theorem leadingDigits_eq_self (cs : List Char) :
    leadingDigits cs = cs ↔ ∀ c ∈ cs, (digitOf c).isSome = true := by
  unfold leadingDigits
  exact List.takeWhile_eq_self_iff

/-- A value that is no decimal integer in syntax, and whose leading digits stay within 64
bits, makes `Atoi` return zero. -/
theorem Atoi_invalid (s : List Char) (hbad : ¬ validDecimal s)
    (hsmall : decimalValue 0 (leadingDigits (unsigned s)) < 18446744073709551616) :
    (Atoi s).1 = 0 := by
  have hbody : unsigned s ≠ [] → leadingDigits (unsigned s) ≠ unsigned s := by
    intro hne heq
    exact hbad ⟨hne, (leadingDigits_eq_self _).mp heq⟩
  have hu : (if hasSign s = true then s.tail else s) = unsigned s := rfl
  unfold Atoi
  by_cases hfast : 0 < byteLen s ∧ byteLen s < 19
  · simp only [hfast, and_self, if_true, hu]
    by_cases hempty : unsigned s = []
    · simp [hempty]
    · have hnd : ∃ c ∈ unsigned s, digitOf c = none := by
        by_contra hcon
        push_neg at hcon
        apply hbody hempty
        rw [leadingDigits_eq_self]
        intro c hc
        exact Option.isSome_iff_ne_none.mpr (hcon c hc)
      obtain ⟨c, hc, hd⟩ := hnd
      simp [hempty, atoiLoop_none 0 _ c hc hd]
  · rw [if_neg hfast]
    unfold ParseInt
    by_cases hs : s = []
    · simp [hs]
    · simp only [hs, if_false, hu]
      have hpu : (ParseUint (unsigned s)).2 = some NumError.invalid := by
        unfold ParseUint
        by_cases hempty : unsigned s = []
        · simp [hempty]
        · rw [if_neg hempty, parseUintLoop_spec 0 _ (by decide),
            if_neg (by omega), if_pos (hbody hempty)]
      simp [hpu]

/-- On a signed digit string too large for 64 bits in either direction `ParseUint`
reports a range error or the value, never a syntax error. -/
theorem ParseUint_digits (body : List Char) (hne : body ≠ [])
    (hall : ∀ c ∈ body, (digitOf c).isSome = true) :
    ParseUint body =
      if 18446744073709551616 ≤ decimalValue 0 body then (maxUint64, some NumError.range)
      else (decimalValue 0 body, none) := by
  unfold ParseUint
  rw [if_neg hne, parseUintLoop_spec 0 _ (by decide), (leadingDigits_eq_self body).mpr hall]
  simp

theorem Atoi_slow_of_large (s : List Char) (hvalid : validDecimal s)
    (hbig : 9223372036854775808 ≤ decimalValue 0 (unsigned s)) :
    Atoi s = ParseInt s := by
  unfold Atoi
  by_cases hfast : 0 < byteLen s ∧ byteLen s < 19
  · have hsmall := leadingDigits_small s hfast.2
    rw [(leadingDigits_eq_self _).mpr hvalid.2] at hsmall
    omega
  · rw [if_neg hfast]

theorem ne_nil_of_valid (s : List Char) (hvalid : validDecimal s) : s ≠ [] := by
  intro hs
  apply hvalid.1
  rw [hs]
  rfl

/-- A digit string without a minus sign that denotes `2^63` or more makes `Atoi` return
the largest `int`. -/
theorem Atoi_too_large (s : List Char) (hvalid : validDecimal s)
    (hpos : s.head? ≠ some '-')
    (hbig : 9223372036854775808 ≤ decimalValue 0 (unsigned s)) :
    (Atoi s).1 = maxInt := by
  have hu : (if hasSign s = true then s.tail else s) = unsigned s := rfl
  rw [Atoi_slow_of_large s hvalid hbig]
  unfold ParseInt
  simp only [ne_nil_of_valid s hvalid, if_false, hu]
  rw [ParseUint_digits _ hvalid.1 hvalid.2]
  by_cases h64 : 18446744073709551616 ≤ decimalValue 0 (unsigned s)
  · simp [h64, hpos, maxUint64, maxInt]
  · simp [h64, hpos, hbig, maxInt]

/-- A digit string with a minus sign whose magnitude exceeds `2^63` makes `Atoi` return
the smallest `int`. -/
theorem Atoi_too_small (s : List Char) (hvalid : validDecimal s)
    (hneg : s.head? = some '-')
    (hbig : 9223372036854775808 < decimalValue 0 (unsigned s)) :
    (Atoi s).1 = minInt := by
  have hu : (if hasSign s = true then s.tail else s) = unsigned s := rfl
  rw [Atoi_slow_of_large s hvalid (le_of_lt hbig)]
  unfold ParseInt
  simp only [ne_nil_of_valid s hvalid, if_false, hu]
  rw [ParseUint_digits _ hvalid.1 hvalid.2]
  by_cases h64 : 18446744073709551616 ≤ decimalValue 0 (unsigned s)
  · simp [h64, hneg, maxUint64, minInt]
  · simp [h64, hneg, hbig, minInt]

/-! ## Configuration loader: the scanning loop -/

theorem intField_setField_same (config : Config) (key value : String)
    (hkey : key = "DAY_OF_WEEK_TO_KEEP" ∨ key = "DAYS_TO_KEEP" ∨ key = "WEEKS_TO_KEEP") :
    intField key (setField config key value) = (Atoi value.data).1 := by
  rcases hkey with h | h | h <;> subst h <;> simp [setField, intField]

theorem intField_setField_other (config : Config) (key other value : String)
    (hkey : key = "DAY_OF_WEEK_TO_KEEP" ∨ key = "DAYS_TO_KEEP" ∨ key = "WEEKS_TO_KEEP")
    (hne : other ≠ key) : intField key (setField config other value) = intField key config := by
  have h1 : ∀ c : Config, intField "DAY_OF_WEEK_TO_KEEP" c = c.DayOfWeekToKeep := fun _ => rfl
  have h2 : ∀ c : Config, intField "DAYS_TO_KEEP" c = c.DaysToKeep := fun c => by
    simp [intField]
  have h3 : ∀ c : Config, intField "WEEKS_TO_KEEP" c = c.WeeksToKeep := fun c => by
    simp [intField]
  rcases hkey with h | h | h <;> subst h
  · rw [h1, h1]
    simp only [setField, apply_ite Config.DayOfWeekToKeep, if_neg hne, ite_self]
  · rw [h2, h2]
    simp only [setField, apply_ite Config.DaysToKeep, if_neg hne, ite_self]
  · rw [h3, h3]
    simp only [setField, apply_ite Config.WeeksToKeep, if_neg hne, ite_self]

theorem setField_unrecognized (config : Config) (key value : String)
    (hkey : key ∉ recognizedKeys) : setField config key value = config := by
  simp only [recognizedKeys, List.mem_cons, List.mem_singleton, not_or, List.not_mem_nil,
    or_false] at hkey
  unfold setField
  simp [hkey]

theorem intField_scanLine_other (config : Config) (key line : String)
    (hkey : key = "DAY_OF_WEEK_TO_KEEP" ∨ key = "DAYS_TO_KEEP" ∨ key = "WEEKS_TO_KEEP")
    (hline : (keyValue line).map Prod.fst ≠ some key) :
    intField key (scanLine config line) = intField key config := by
  unfold scanLine
  cases h : keyValue line with
  | none => rfl
  | some kv =>
    apply intField_setField_other config key kv.1 kv.2 hkey
    intro heq
    apply hline
    rw [h, Option.map_some', heq]

theorem intField_foldl_other (key : String) (post : List String) (config : Config)
    (hkey : key = "DAY_OF_WEEK_TO_KEEP" ∨ key = "DAYS_TO_KEEP" ∨ key = "WEEKS_TO_KEEP")
    (hpost : ∀ l ∈ post, (keyValue l).map Prod.fst ≠ some key) :
    intField key (post.foldl scanLine config) = intField key config := by
  induction post generalizing config with
  | nil => rfl
  | cons l ls ih =>
    rw [List.foldl_cons, ih _ (fun x hx => hpost x (List.mem_cons_of_mem l hx)),
      intField_scanLine_other config key l hkey (hpost l (List.mem_cons_self l ls))]

/-- The last line for an integer key decides the field: it holds what `Atoi` returns for
the trimmed value of that line. -/
theorem intField_last_line (pre post : List String) (line key value : String)
    (hkey : key = "DAY_OF_WEEK_TO_KEEP" ∨ key = "DAYS_TO_KEEP" ∨ key = "WEEKS_TO_KEEP")
    (hline : keyValue line = some (key, value))
    (hlast : ∀ l ∈ post, (keyValue l).map Prod.fst ≠ some key) :
    intField key ((pre ++ line :: post).foldl scanLine Config.zero) = (Atoi value.data).1 := by
  rw [List.foldl_append, List.foldl_cons, intField_foldl_other key post _ hkey hlast]
  unfold scanLine
  rw [hline]
  exact intField_setField_same _ key value hkey

/-- C9, amended: let the last line for one of the keys `DAY_OF_WEEK_TO_KEEP`,
`DAYS_TO_KEEP`, `WEEKS_TO_KEEP` carry a trimmed value that is no decimal integer in syntax
(empty, a lone sign, or holding a non-digit) and whose leading digits stay within 64 bits:
then `loadConfig` returns a record with that field zero. When the value is a signed digit
string too large for `int`, the field is the largest `int`, and the smallest `int` when it
is too small. A line with an unrecognized key changes no field. -/
theorem malformed_int_setting (pre post : List String) (line key value : String)
    (hkey : key = "DAY_OF_WEEK_TO_KEEP" ∨ key = "DAYS_TO_KEEP" ∨ key = "WEEKS_TO_KEEP")
    (hline : keyValue line = some (key, value))
    (hlast : ∀ l ∈ post, (keyValue l).map Prod.fst ≠ some key) :
    ∃ config, loadConfig (some (pre ++ line :: post, false)) = some config ∧
      (¬ validDecimal value.data →
        decimalValue 0 (leadingDigits (unsigned value.data)) < 18446744073709551616 →
        intField key config = 0) ∧
      (validDecimal value.data → value.data.head? ≠ some '-' →
        9223372036854775808 ≤ decimalValue 0 (unsigned value.data) →
        intField key config = maxInt) ∧
      (validDecimal value.data → value.data.head? = some '-' →
        9223372036854775808 < decimalValue 0 (unsigned value.data) →
        intField key config = minInt) ∧
      (∀ (c : Config) (l k v : String), keyValue l = some (k, v) → k ∉ recognizedKeys →
        scanLine c l = c) := by
  have hfield := intField_last_line pre post line key value hkey hline hlast
  refine ⟨(pre ++ line :: post).foldl scanLine Config.zero, rfl, ?_, ?_, ?_, ?_⟩
  · intro hbad hsmall
    rw [hfield]
    exact Atoi_invalid _ hbad hsmall
  · intro hvalid hpos hbig
    rw [hfield]
    exact Atoi_too_large _ hvalid hpos hbig
  · intro hvalid hneg hbig
    rw [hfield]
    exact Atoi_too_small _ hvalid hneg hbig
  · intro c l k v hl hk
    unfold scanLine
    rw [hl]
    exact setField_unrecognized c k v hk

theorem malformed_int_setting_witness :
    keyValue "DAYS_TO_KEEP = seven" = some ("DAYS_TO_KEEP", "seven") ∧
    (∀ l ∈ ["FORMAT=p", "NOTE=DAYS_TO_KEEP"], (keyValue l).map Prod.fst ≠ some "DAYS_TO_KEEP") ∧
    ¬ validDecimal "seven".data ∧
    decimalValue 0 (leadingDigits (unsigned "seven".data)) < 18446744073709551616 ∧
    ∃ config, loadConfig (some (["DAYS_TO_KEEP=7"] ++ "DAYS_TO_KEEP = seven" ::
        ["FORMAT=p", "NOTE=DAYS_TO_KEEP"], false)) = some config ∧
      intField "DAYS_TO_KEEP" config = 0 := by
  obtain ⟨config, hload, hzero, _⟩ := malformed_int_setting ["DAYS_TO_KEEP=7"]
    ["FORMAT=p", "NOTE=DAYS_TO_KEEP"] "DAYS_TO_KEEP = seven" "DAYS_TO_KEEP" "seven"
    (by decide) (by decide) (by decide)
  exact ⟨by decide, by decide, by decide, by decide, config, hload,
    hzero (by decide) (by decide)⟩

/-- C9 as stated fails on a digit string too large for `int`: the value is refused with a
range error, and the field holds the largest `int`, not zero. -/
theorem too_large_value_is_clamped :
    keyValue "DAYS_TO_KEEP=99999999999999999999" =
      some ("DAYS_TO_KEEP", "99999999999999999999") ∧
    validDecimal "99999999999999999999".data ∧
    maxInt < (decimalValue 0 (unsigned "99999999999999999999".data) : Int) ∧
    (Atoi "99999999999999999999".data).2 = some NumError.range ∧
    ∃ config, loadConfig (some (["DAYS_TO_KEEP=99999999999999999999"], false)) = some config ∧
      config.DaysToKeep = 9223372036854775807 ∧ config.DaysToKeep ≠ 0 :=
  ⟨by decide, by decide, by decide, by decide, _, rfl, by decide, by decide⟩

/-! ## The model on sample inputs -/

/-- The model of `Atoi` on ordinary values, on a lone sign and at the `int` bounds. -/
theorem Atoi_samples :
    Atoi "7".data = (7, none) ∧ Atoi "-12".data = (-12, none) ∧ Atoi "+5".data = (5, none) ∧
    Atoi "".data = (0, some NumError.invalid) ∧ Atoi "-".data = (0, some NumError.invalid) ∧
    Atoi "1x".data = (0, some NumError.invalid) ∧
    Atoi "9223372036854775807".data = (9223372036854775807, none) ∧
    Atoi "9223372036854775808".data = (9223372036854775807, some NumError.range) ∧
    Atoi "-9223372036854775808".data = (-9223372036854775808, none) ∧
    Atoi "-9223372036854775809".data = (-9223372036854775808, some NumError.range) ∧
    Atoi "99999999999999999999999x".data = (9223372036854775807, some NumError.range) := by
  decide

/-- The sample configuration file loads into the sample settings record, and the sample
run prunes the one expired daily entry, keeps the entry modified exactly at the cutoff,
creates the destination, dumps, compresses and removes the plain dump. -/
theorem sample_run :
    carregaConfig (sampleWorld (sampleCfg "p")) = some (sampleConfig "p") ∧
    main (sampleWorld (sampleCfg "p")) =
      [Effect.removeAll "/bk/2024-01-01-daily", Effect.mkdirAll "/bk/2024-03-01-daily" 0o755,
       Effect.exec "cmd" ["/C", "pg_dump", "--host=db1", "--port=5432", "--username=postgres",
         "--format=p", "-f", "/bk/2024-03-01-daily/orders.sql", "orders"]
         (some ["PATH=/bin", "PGPASSWORD=s3cret"]),
       Effect.exec "7z" ["a", "-t7z", "/bk/2024-03-01-daily/orders_2024-03-01.7z",
         "/bk/2024-03-01-daily/orders.sql"] none,
       Effect.remove "/bk/2024-03-01-daily/orders.sql"] := by
  decide

end PgBackup
